import Mathlib

/-!
Verification of the kowl partition consumer
(`src/backend/pkg/kafka/partition_consumer.go`).

Bytes are modelled as `Nat` (with a `< 256` side condition where it
matters), byte slices as `List Nat`, Go `int32`/`int64` as `Int`.

External collaborators that the source calls but whose code is not part
of this repository (the sarama broker client, the otto JavaScript engine,
the fastjson validator, the goxml2json converter) are modelled either as
explicit function parameters or as definitions written from their
documented behaviour; each such definition says so in its doc comment.
-/

namespace Kowl

/-- The `valueType` string constants of the source
(`json`, `xml`, `text`, `binary`); `none` models the empty string `""`
returned by `getValue` for empty input. -/
inductive ValueTy where
  | none
  | json
  | xml
  | text
  | binary
  deriving DecidableEq, Repr

/-- `DirectEmbedding` as used by `getValue`: a content-type tag together
with the (possibly transformed) payload bytes. -/
structure DirectEmbedding where
  valueTy : ValueTy
  value : List Nat
  deriving DecidableEq, Repr

/-- Whether a byte is one of the cut-set bytes of
`bytes.TrimLeft(value, " \t\r\n")`: space, tab, CR, LF. -/
def isTrimByte (b : Nat) : Bool :=
  b == 32 || b == 9 || b == 13 || b == 10

/-- `bytes.TrimLeft(value, " \t\r\n")`: drop leading whitespace bytes. -/
def trimLeftWS (v : List Nat) : List Nat :=
  v.dropWhile isTrimByte

/-- Whether a byte is JSON insignificant whitespace (RFC 8259 `ws`). -/
def isJSONWS (b : Nat) : Bool :=
  b == 32 || b == 9 || b == 10 || b == 13

/-- Skip JSON insignificant whitespace. -/
def skipWS (s : List Nat) : List Nat :=
  s.dropWhile isJSONWS

/-- One hexadecimal digit byte (`0-9a-fA-F`). -/
def isHexDigit (b : Nat) : Bool :=
  (48 ≤ b && b ≤ 57) || (97 ≤ b && b ≤ 102) || (65 ≤ b && b ≤ 70)

/-- An ASCII decimal digit byte. -/
def isDigit (b : Nat) : Bool :=
  48 ≤ b && b ≤ 57

/-- Whether a byte is a single-character JSON escape code
(one of `" \ / b f n r t`). -/
def isSimpleEscape (c : Nat) : Bool :=
  c == 34 || c == 92 || c == 47 || c == 98 || c == 102 ||
    c == 110 || c == 114 || c == 116

/-- Consume the body and closing quote of a JSON string literal, the
opening quote already consumed.  Escapes are `\` plus a simple escape
code or `\u` plus four hex digits; raw control bytes below `0x20` are
rejected; any other non-quote, non-backslash byte is accepted. -/
def pStringBody : List Nat → Option (List Nat)
  | [] => Option.none
  | c :: rest =>
    if c == 34 then some rest
    else if c == 92 then
      match rest with
      | [] => Option.none
      | e :: rest2 =>
        if isSimpleEscape e then pStringBody rest2
        else if e == 117 then
          match rest2 with
          | h1 :: h2 :: h3 :: h4 :: rest3 =>
            if isHexDigit h1 && isHexDigit h2 && isHexDigit h3 &&
                isHexDigit h4 then
              pStringBody rest3
            else
              Option.none
          | _ => Option.none
        else Option.none
    else if c < 32 then Option.none
    else pStringBody rest

/-- Consume the fraction/exponent tail of a JSON number after the
integer part. -/
def pNumberTail (s : List Nat) : Option (List Nat) :=
  let afterFrac :=
    match s with
    | 46 :: rest =>
      let ds := rest.takeWhile isDigit
      if ds.isEmpty then Option.none else some (rest.dropWhile isDigit)
    | _ => some s
  match afterFrac with
  | Option.none => Option.none
  | some s1 =>
    match s1 with
    | e :: rest =>
      if e == 101 || e == 69 then
        let rest1 :=
          match rest with
          | s2 :: r2 => if s2 == 43 || s2 == 45 then r2 else rest
          | [] => rest
        let ds := rest1.takeWhile isDigit
        if ds.isEmpty then Option.none else some (rest1.dropWhile isDigit)
      else some s1
    | [] => some s1

/-- Consume a JSON number, strict grammar:
`-? (0 | [1-9][0-9]*) frac? exp?`. -/
def pNumber (s : List Nat) : Option (List Nat) :=
  let s1 := match s with
    | 45 :: rest => rest
    | _ => s
  match s1 with
  | [] => Option.none
  | d :: rest =>
    if d == 48 then pNumberTail rest
    else if 49 ≤ d && d ≤ 57 then pNumberTail (rest.dropWhile isDigit)
    else Option.none

/-- Check that `pre` is a literal prefix of `s` and return the rest. -/
def pLit : List Nat → List Nat → Option (List Nat)
  | [], s => some s
  | _, [] => Option.none
  | p :: ps, c :: cs => if p == c then pLit ps cs else Option.none

mutual

/-- Fuel-indexed recursive-descent consumer for one JSON value.
Modelled from the spec: `fastjson.Validate`, the strict JSON validation
the source applies to `{`/`[`-initial payloads; the library's code is
not part of this repository.  Returns the unconsumed rest on success. -/
def pValue : Nat → List Nat → Option (List Nat)
  | 0, _ => Option.none
  | fuel + 1, s =>
    match skipWS s with
    | [] => Option.none
    | c :: rest =>
      if c == 110 then pLit [117, 108, 108] rest
      else if c == 116 then pLit [114, 117, 101] rest
      else if c == 102 then pLit [97, 108, 115, 101] rest
      else if c == 34 then pStringBody rest
      else if c == 123 then
        match skipWS rest with
        | 125 :: rest' => some rest'
        | s' => pMembers fuel s'
      else if c == 91 then
        match skipWS rest with
        | 93 :: rest' => some rest'
        | s' => pElems fuel s'
      else pNumber (c :: rest)

/-- One or more `"key": value` members, then `}`. -/
def pMembers : Nat → List Nat → Option (List Nat)
  | 0, _ => Option.none
  | fuel + 1, s =>
    match s with
    | 34 :: rest =>
      match pStringBody rest with
      | Option.none => Option.none
      | some afterKey =>
        match skipWS afterKey with
        | 58 :: afterColon =>
          match pValue fuel afterColon with
          | Option.none => Option.none
          | some afterVal =>
            match skipWS afterVal with
            | 44 :: afterComma => pMembers fuel (skipWS afterComma)
            | 125 :: rest' => some rest'
            | _ => Option.none
        | _ => Option.none
    | _ => Option.none

/-- One or more array elements, then `]`. -/
def pElems : Nat → List Nat → Option (List Nat)
  | 0, _ => Option.none
  | fuel + 1, s =>
    match pValue fuel s with
    | Option.none => Option.none
    | some afterVal =>
      match skipWS afterVal with
      | 44 :: afterComma => pElems fuel (skipWS afterComma)
      | 93 :: rest' => some rest'
      | _ => Option.none

end

/-- Modelled from the spec: `fastjson.Validate` — strict validation of a
single JSON value with optional surrounding insignificant whitespace
(the library's code is not part of this repository). -/
def fastjsonValidate (s : List Nat) : Bool :=
  match pValue (s.length + 1) s with
  | some rest => (skipWS rest).isEmpty
  | Option.none => false

/-- Whether a byte is a UTF-8 continuation byte (`0x80`–`0xBF`). -/
def isCont (b : Nat) : Bool :=
  128 ≤ b && b ≤ 191

/-- Whether `b c1 c2` start a well-formed three-byte UTF-8 sequence
(Go's `acceptRanges`: `0xE0` needs `0xA0`–`0xBF`, `0xED` needs
`0x80`–`0x9F` — no overlongs, no surrogates). -/
def threeByteOk (b c1 c2 : Nat) : Bool :=
  ((b == 224 && (160 ≤ c1 && c1 ≤ 191)) ||
   (((225 ≤ b && b ≤ 236) || b == 238 || b == 239) && isCont c1) ||
   (b == 237 && (128 ≤ c1 && c1 ≤ 159))) && isCont c2

/-- Whether `b c1 c2 c3` start a well-formed four-byte UTF-8 sequence
(Go's `acceptRanges`: `0xF0` needs `0x90`–`0xBF`, `0xF4` needs
`0x80`–`0x8F` — nothing above `U+10FFFF`). -/
def fourByteOk (b c1 c2 c3 : Nat) : Bool :=
  ((b == 240 && (144 ≤ c1 && c1 ≤ 191)) ||
   ((241 ≤ b && b ≤ 243) && isCont c1) ||
   (b == 244 && (128 ≤ c1 && c1 ≤ 143))) && isCont c2 && isCont c3

/-- Model of Go `unicode/utf8.Valid`: whether the bytes are a
well-formed UTF-8 encoding (no overlong forms, no surrogates, nothing
above `U+10FFFF`), encoding the same sequence kinds as Go's
`first`/`acceptRanges` tables. -/
def utf8Valid : List Nat → Bool
  | [] => true
  | b :: rest =>
    if b ≤ 127 then utf8Valid rest
    else
      match rest with
      | [] => false
      | c1 :: rest1 =>
        if 194 ≤ b && b ≤ 223 then isCont c1 && utf8Valid rest1
        else
          match rest1 with
          | [] => false
          | c2 :: rest2 =>
            if threeByteOk b c1 c2 then utf8Valid rest2
            else
              match rest2 with
              | [] => false
              | c3 :: rest3 => fourByteOk b c1 c2 c3 && utf8Valid rest3

/-- The base64 standard alphabet, as a map from a 6-bit group to its
ASCII byte (models `encoding/base64.StdEncoding`). -/
def b64Char (n : Nat) : Nat :=
  if n ≤ 25 then 65 + n
  else if n ≤ 51 then 97 + (n - 26)
  else if n ≤ 61 then 48 + (n - 52)
  else if n == 62 then 43
  else 47

/-- Inverse of the base64 standard alphabet. -/
def b64Inv (c : Nat) : Nat :=
  if 65 ≤ c && c ≤ 90 then c - 65
  else if 97 ≤ c && c ≤ 122 then c - 97 + 26
  else if 48 ≤ c && c ≤ 57 then c - 48 + 52
  else if c == 43 then 62
  else 63

/-- Model of Go `base64.StdEncoding.EncodeToString`: standard base64
with `=` (byte 61) padding, three input bytes per four output bytes. -/
def base64Encode : List Nat → List Nat
  | [] => []
  | [a] => [b64Char (a / 4), b64Char (a % 4 * 16), 61, 61]
  | [a, b] => [b64Char (a / 4), b64Char (a % 4 * 16 + b / 16), b64Char (b % 16 * 4), 61]
  | a :: b :: c :: rest =>
    b64Char (a / 4) :: b64Char (a % 4 * 16 + b / 16) ::
      b64Char (b % 16 * 4 + c / 64) :: b64Char (c % 64) :: base64Encode rest

/-- Model of Go `base64.StdEncoding` decoding on well-formed encodings:
four alphabet bytes per three output bytes, a `=`-padded final quantum
yielding one or two bytes. -/
def base64Decode : List Nat → List Nat
  | c0 :: c1 :: c2 :: c3 :: rest =>
    if c2 == 61 then [b64Inv c0 * 4 + b64Inv c1 / 16]
    else if c3 == 61 then
      [b64Inv c0 * 4 + b64Inv c1 / 16, b64Inv c1 % 16 * 16 + b64Inv c2 / 4]
    else
      (b64Inv c0 * 4 + b64Inv c1 / 16) :: (b64Inv c1 % 16 * 16 + b64Inv c2 / 4) ::
        (b64Inv c2 % 4 * 64 + b64Inv c3) :: base64Decode rest
  | _ => []

/-- The content normalizer `getValue` of the source, translated
branch-for-branch.  The two third-party validators it calls are passed
in as parameters: `jv` stands for `fastjson.Validate` and `xc` for
`xj.Convert` (XML→JSON; `some j` models a successful conversion with
output bytes `j`, `none` a conversion error). -/
def getValue (jv : List Nat → Bool) (xc : List Nat → Option (List Nat))
    (value : List Nat) : ValueTy × DirectEmbedding :=
  if value.length = 0 then
    (ValueTy.none, ⟨ValueTy.none, value⟩)
  else
    let trimmed := trimLeftWS value
    if trimmed.length = 0 then
      (ValueTy.text, ⟨ValueTy.text, value⟩)
    else
      let startsWithJSON := trimmed.headI == 91 || trimmed.headI == 123
      if startsWithJSON && jv trimmed then
        (ValueTy.json, ⟨ValueTy.json, trimmed⟩)
      else
        let startsWithXML := trimmed.headI == 60
        match if startsWithXML then xc trimmed else Option.none with
        | some json => (ValueTy.xml, ⟨ValueTy.xml, json⟩)
        | Option.none =>
          if utf8Valid value then
            (ValueTy.text, ⟨ValueTy.text, value⟩)
          else
            (ValueTy.binary, ⟨ValueTy.binary, base64Encode value⟩)

/-- A raw broker record as delivered by a sarama partition consumer
(`*sarama.ConsumerMessage`): partition, offset, timestamp, key bytes,
value bytes. -/
structure RawRecord where
  partition : Int
  offset : Int
  timestamp : Int
  key : List Nat
  value : List Nat
  deriving DecidableEq, Repr, Inhabited

/-- `TopicMessage` of the source: one message of the output channel. -/
structure TopicMessage where
  partitionID : Int
  offset : Int
  timestamp : Int
  key : DirectEmbedding
  keyTy : ValueTy
  value : DirectEmbedding
  valueTy : ValueTy
  size : Nat
  isValueNull : Bool
  deriving DecidableEq, Repr

/-- `PartitionConsumeRequest` of the source. -/
structure PartitionConsumeRequest where
  partitionID : Int
  isDrained : Bool
  lowWaterMark : Int
  highWaterMark : Int
  startOffset : Int
  endOffset : Int
  maxMessageCount : Int
  deriving DecidableEq, Repr

/-- `interpreterArguments` of the source: the inputs handed to one
filter evaluation. -/
structure InterpreterArguments where
  partitionID : Int
  offset : Int
  timestamp : Int
  key : DirectEmbedding
  value : DirectEmbedding
  deriving DecidableEq, Repr

/-- The byte size `len(m.Key) + len(m.Value)` the loop reports to
`Progress.OnMessageConsumed` for each record, before filtering. -/
def messageSize (m : RawRecord) : Nat :=
  m.key.length + m.value.length

/-- The `TopicMessage` the loop builds from a record (`Run`, lines
131–141): note `Size` is `len(m.Value)` alone. -/
def buildTopicMessage (jv : List Nat → Bool) (xc : List Nat → Option (List Nat))
    (m : RawRecord) : TopicMessage :=
  let v := getValue jv xc m.value
  let k := getValue jv xc m.key
  { partitionID := m.partition
    offset := m.offset
    timestamp := m.timestamp
    key := k.2
    keyTy := k.1
    value := v.2
    valueTy := v.1
    size := m.value.length
    isValueNull := m.value.isEmpty }

/-- The `interpreterArguments` the loop builds from a record. -/
def argsOf (jv : List Nat → Bool) (xc : List Nat → Option (List Nat))
    (m : RawRecord) : InterpreterArguments :=
  let v := getValue jv xc m.value
  let k := getValue jv xc m.key
  { partitionID := m.partition
    offset := m.offset
    timestamp := m.timestamp
    key := k.2
    value := v.2 }

/-- One observable action of a `Run` execution, in program order:
a `Progress.OnMessageConsumed` call, a `Progress.OnError` call, a send
on the output channel `MessageCh`, or the deferred send on `DoneCh`
(error strings are not modelled). -/
inductive Event where
  | consumed (size : Nat)
  | error
  | message (m : TopicMessage)
  | done
  deriving DecidableEq, Repr

/-- Which `return` of `Run` ended the task. -/
inductive ExitKind where
  | openFailed
  | setupFailed
  | channelClosed
  | evalError
  | bounds
  | cancelled
  deriving DecidableEq, Repr

/-- The `for`/`select` loop of `Run` (lines 116–179).  The finite list
`records` is the sequence the broker channel delivers before closing;
running past it models the channel closing (`ok == false`).
Cancellation is modelled by two schedules resolving the two `select`
races against `ctx.Done()`: `cancelRecv i` means the outer select takes
the `ctx.Done()` branch at iteration `i`, `cancelSend i` that the send
select does.  `i` counts iterations, `count` is `messageCount`, `f` is
the `isMessageOK` closure returned by `SetupInterpreter`. -/
def runLoop (jv : List Nat → Bool) (xc : List Nat → Option (List Nat))
    (f : InterpreterArguments → Except String Bool)
    (endOffset maxCount : Int) (cancelRecv cancelSend : Nat → Bool) :
    Nat → Int → List RawRecord → List Event × ExitKind
  | i, _, [] =>
    if cancelRecv i then ([], ExitKind.cancelled)
    else ([Event.error], ExitKind.channelClosed)
  | i, count, m :: ms =>
    if cancelRecv i then ([], ExitKind.cancelled)
    else
      let sizeEv := Event.consumed (messageSize m)
      match f (argsOf jv xc m) with
      | Except.error _ => ([sizeEv, Event.error], ExitKind.evalError)
      | Except.ok isOk =>
        let count' := if isOk then count + 1 else count
        if isOk && cancelSend i then ([sizeEv], ExitKind.cancelled)
        else
          let sendEvs := if isOk then [Event.message (buildTopicMessage jv xc m)] else []
          if m.offset ≥ endOffset || count' == maxCount then
            (sizeEv :: sendEvs, ExitKind.bounds)
          else
            let rest := runLoop jv xc f endOffset maxCount cancelRecv cancelSend
              (i + 1) count' ms
            (sizeEv :: (sendEvs ++ rest.1), rest.2)

/-- `Run` of the source, as the list of observable events plus the exit
kind.  `openOk` models whether `Consumer.ConsumePartition` succeeds and
`setup` the result of `SetupInterpreter`; the deferred `DoneCh` send is
the final event on every path. -/
def Run (jv : List Nat → Bool) (xc : List Nat → Option (List Nat))
    (openOk : Bool) (setup : Except String (InterpreterArguments → Except String Bool))
    (req : PartitionConsumeRequest) (cancelRecv cancelSend : Nat → Bool)
    (records : List RawRecord) : List Event × ExitKind :=
  let body :=
    if !openOk then ([Event.error], ExitKind.openFailed)
    else
      match setup with
      | Except.error _ => ([Event.error], ExitKind.setupFailed)
      | Except.ok f =>
        runLoop jv xc f req.endOffset req.maxMessageCount cancelRecv cancelSend 0 0 records
  (body.1 ++ [Event.done], body.2)

/-- The messages sent on the output channel during an execution, in
order. -/
def messagesOf (evs : List Event) : List TopicMessage :=
  evs.filterMap fun e =>
    match e with
    | Event.message m => some m
    | _ => Option.none

/-- How many records the loop processed (one `OnMessageConsumed` call
per record received from the broker channel). -/
def consumedCount (evs : List Event) : Nat :=
  evs.countP fun e =>
    match e with
    | Event.consumed _ => true
    | _ => false

/-- How many `DoneCh` completion signals an execution sent. -/
def doneCount (evs : List Event) : Nat :=
  evs.countP fun e =>
    match e with
    | Event.done => true
    | _ => false

/-- The stop condition of `Run` line 172, expressed over the prefix of
the record list up to and including index `k`, for a boolean filter
`pass`: the record's offset reached `endOffset`, or the accepted count
after this record equals `maxCount`. -/
def stopsAt (pass : RawRecord → Bool) (endOffset maxCount : Int)
    (records : List RawRecord) (k : Nat) : Bool :=
  (records.getD k default).offset ≥ endOffset ||
    (((records.take (k + 1)).countP pass : Int) == maxCount)

/-- A JavaScript value as a filter script can return it through the
otto engine: `undefined`, `null`, a boolean, a number (modelled as an
integer), a string, or an object/array reference. -/
inductive JSValue where
  | undefined
  | null
  | boolean (b : Bool)
  | number (n : Int)
  | strVal (s : List Nat)
  | object
  deriving DecidableEq, Repr

/-- Modelled from the otto library (robertkrimen/otto, not part of this
repository): `Value.ToBoolean` implements the ECMA-262 `ToBoolean`
coercion — `undefined`/`null` are false, numbers are true iff nonzero,
strings are true iff non-empty, objects are always true. -/
def jsToBoolean : JSValue → Bool
  | JSValue.undefined => false
  | JSValue.null => false
  | JSValue.boolean b => b
  | JSValue.number n => n != 0
  | JSValue.strVal s => !s.isEmpty
  | JSValue.object => true

/-- The conversion step of `isMessageOk` (line 296 of the source):
`isOk, err = val.ToBoolean()` followed by the error check.  Modelled
from the otto library: for every value a script can produce, the
coercion is total and returns without error, so the `err != nil` branch
is unreachable. -/
def toBooleanE (v : JSValue) : Except String Bool :=
  Except.ok (jsToBoolean v)

/-- A constantly-false cancellation schedule: the context is never
cancelled. -/
def noCancel : Nat → Bool := fun _ => false

/-- Any non-empty input is classified with one of the four non-`none`
content types: every branch of `getValue` past the length check returns
`text`, `json`, `xml` or `binary`. -/
theorem getValue_fst_ne_none (jv : List Nat → Bool) (xc : List Nat → Option (List Nat))
    (v : List Nat) (hv : v ≠ []) : (getValue jv xc v).1 ≠ ValueTy.none := by
  have hlen : ¬ v.length = 0 := by simpa [List.length_eq_zero] using hv
  by_cases h1 : (trimLeftWS v).length = 0
  · simp [getValue, hlen, h1]
  · by_cases h2 : (((trimLeftWS v).headI == 91 || (trimLeftWS v).headI == 123) &&
        jv (trimLeftWS v)) = true
    · simp [getValue, hlen, h1, h2]
    · by_cases hx : (trimLeftWS v).headI = 60
      · cases h3 : xc (trimLeftWS v) with
        | some j => simp [getValue, hlen, h1, h2, hx, h3]
        | none => by_cases h4 : utf8Valid v <;> simp [getValue, hlen, h1, h2, hx, h3, h4]
      · by_cases h4 : utf8Valid v <;> simp [getValue, hlen, h1, h2, hx, h4]

/-- C8: the Content Normalizer returns `contentType = none` if and only
if the original bytes were empty; in particular a non-empty
all-whitespace input is classified `text`, not `none`. -/
theorem getValue_none_iff_empty (jv : List Nat → Bool)
    (xc : List Nat → Option (List Nat)) (v : List Nat) :
    ((getValue jv xc v).1 = ValueTy.none ↔ v = []) ∧
      (v ≠ [] → trimLeftWS v = [] → (getValue jv xc v).1 = ValueTy.text) := by
  constructor
  · constructor
    · intro h
      by_contra hv
      exact getValue_fst_ne_none jv xc v hv h
    · intro h
      subst h
      rfl
  · intro hv htrim
    have hlen : ¬ v.length = 0 := by simpa [List.length_eq_zero] using hv
    have h1 : (trimLeftWS v).length = 0 := by simp [htrim]
    simp [getValue, hlen, h1]

/-- Witness for C8 at concrete inputs: the single space byte is
classified `text`, the empty input `none`. -/
theorem getValue_none_iff_empty_witness :
    (getValue (fun _ => false) (fun _ => Option.none) [32]).1 = ValueTy.text ∧
      (getValue (fun _ => false) (fun _ => Option.none) ([] : List Nat)).1 = ValueTy.none := by
  constructor
  · exact (getValue_none_iff_empty (fun _ => false) (fun _ => Option.none) [32]).2
      (by decide) (by decide)
  · exact (getValue_none_iff_empty (fun _ => false) (fun _ => Option.none) []).1.mpr rfl

/-- C3 counterexample: the bytes of `123` are a non-empty, valid JSON
value (a number), yet the normalizer classifies them as `text`, not
`json` — only `{`/`[`-initial payloads are ever JSON-validated. -/
theorem getValue_json_scalar_counterexample :
    fastjsonValidate [49, 50, 51] = true ∧
      [49, 50, 51] ≠ ([] : List Nat) ∧
      (getValue fastjsonValidate (fun _ => Option.none) [49, 50, 51]).1 = ValueTy.text := by
  exact ⟨by decide, by decide, by decide⟩

/-- C3 (amended): for every byte sequence whose leading-whitespace-trimmed
form is non-empty, starts with `{` or `[`, and passes JSON validation,
the normalizer returns `contentType = json` and an embedding holding
exactly the trimmed bytes. -/
theorem getValue_json_of_valid (jv : List Nat → Bool)
    (xc : List Nat → Option (List Nat)) (v : List Nat)
    (hne : trimLeftWS v ≠ [])
    (hhead : (trimLeftWS v).headI = 123 ∨ (trimLeftWS v).headI = 91)
    (hjv : jv (trimLeftWS v) = true) :
    getValue jv xc v = (ValueTy.json, ⟨ValueTy.json, trimLeftWS v⟩) := by
  have hv : ¬ v.length = 0 := by
    intro h
    apply hne
    have hnil : v = [] := List.length_eq_zero.mp h
    simp [hnil, trimLeftWS]
  have h1 : ¬ (trimLeftWS v).length = 0 := by simpa [List.length_eq_zero] using hne
  have h2 : (((trimLeftWS v).headI == 91 || (trimLeftWS v).headI == 123) &&
      jv (trimLeftWS v)) = true := by
    rcases hhead with h | h <;> simp [h, hjv]
  simp [getValue, hv, h1, h2]

/-- Witness for the amended C3 at the concrete input `{}` (with leading
whitespace), validated by the fastjson model. -/
theorem getValue_json_of_valid_witness :
    getValue fastjsonValidate (fun _ => Option.none) [32, 123, 125]
      = (ValueTy.json, ⟨ValueTy.json, trimLeftWS [32, 123, 125]⟩) :=
  getValue_json_of_valid fastjsonValidate (fun _ => Option.none) [32, 123, 125]
    (by decide) (by decide) (by decide)

/-- C10: the `Size` field of the message the loop builds is the value
length alone, whereas the byte count reported to the progress sink is
key length plus value length; the two differ whenever the key is
non-empty.  The final conjunct ties the reported count to the loop: the
first event of processing a record is always its `OnMessageConsumed`
call. -/
theorem topicMessage_size_vs_consumed (jv : List Nat → Bool)
    (xc : List Nat → Option (List Nat)) (m : RawRecord)
    (f : InterpreterArguments → Except String Bool) (e mc : Int)
    (i : Nat) (c : Int) (ms : List RawRecord)
    (h : m.key ≠ []) :
    (buildTopicMessage jv xc m).size = m.value.length ∧
      messageSize m = m.key.length + m.value.length ∧
      (buildTopicMessage jv xc m).size ≠ messageSize m ∧
      (runLoop jv xc f e mc noCancel noCancel i c (m :: ms)).1.head?
        = some (Event.consumed (messageSize m)) := by
  refine ⟨rfl, rfl, ?_, ?_⟩
  · have hk : m.key.length ≠ 0 := by simpa [List.length_eq_zero] using h
    simp only [buildTopicMessage, messageSize]
    omega
  · rw [runLoop]
    simp only [noCancel, Bool.false_eq_true, if_false]
    cases hf : f (argsOf jv xc m) with
    | error err => simp
    | ok isOk =>
      simp only []
      split
      · simp
      · split <;> split <;> simp

/-- Witness for C10 at a concrete record with a one-byte key and a
two-byte value: built `Size` is 2, reported size is 3. -/
theorem topicMessage_size_vs_consumed_witness :
    (buildTopicMessage (fun _ => false) (fun _ => Option.none)
        ⟨0, 5, 0, [1], [2, 3]⟩).size = 2 ∧
      messageSize ⟨0, 5, 0, [1], [2, 3]⟩ = 1 + 2 ∧
      (buildTopicMessage (fun _ => false) (fun _ => Option.none)
          ⟨0, 5, 0, [1], [2, 3]⟩).size ≠ messageSize ⟨0, 5, 0, [1], [2, 3]⟩ ∧
      (runLoop (fun _ => false) (fun _ => Option.none)
          (fun _ => Except.ok true) 100 100 noCancel noCancel 0 0
          [⟨0, 5, 0, [1], [2, 3]⟩]).1.head?
        = some (Event.consumed (messageSize ⟨0, 5, 0, [1], [2, 3]⟩)) :=
  topicMessage_size_vs_consumed (fun _ => false) (fun _ => Option.none)
    ⟨0, 5, 0, [1], [2, 3]⟩ (fun _ => Except.ok true) 100 100 0 0 []
    (by decide)

/-- C4 counterexample: a script returning the non-boolean number `1`
does not produce an evaluation error — the conversion step succeeds and
coerces it to `true`. -/
theorem toBooleanE_nonbool_counterexample :
    toBooleanE (JSValue.number 1) = Except.ok true ∧
      JSValue.number 1 ≠ JSValue.boolean true ∧
      JSValue.number 1 ≠ JSValue.boolean false :=
  ⟨rfl, by decide, by decide⟩

/-- C4 (amended): the conversion of a script's return value uses the
engine's ECMA `ToBoolean` coercion, which is total — it never returns
an evaluation error, for boolean and non-boolean values alike; an
evaluation error from the filter (script exception, parse failure,
timeout) remains fatal for the owning task: the loop reports it and
exits with `evalError`, emitting no message for that record. -/
theorem toBooleanE_total_and_eval_error_fatal (v : JSValue)
    (jv : List Nat → Bool) (xc : List Nat → Option (List Nat))
    (f : InterpreterArguments → Except String Bool) (e mc : Int)
    (i : Nat) (c : Int) (m : RawRecord) (ms : List RawRecord) (err : String)
    (hf : f (argsOf jv xc m) = Except.error err) :
    toBooleanE v = Except.ok (jsToBoolean v) ∧
      runLoop jv xc f e mc noCancel noCancel i c (m :: ms)
        = ([Event.consumed (messageSize m), Event.error], ExitKind.evalError) := by
  refine ⟨rfl, ?_⟩
  rw [runLoop]
  simp [noCancel, hf]

/-- Witness for the amended C4: the non-boolean `1` coerces without
error, and a filter that fails on the concrete record aborts the loop
with `evalError`. -/
theorem toBooleanE_total_and_eval_error_fatal_witness :
    toBooleanE (JSValue.number 1) = Except.ok (jsToBoolean (JSValue.number 1)) ∧
      runLoop (fun _ => false) (fun _ => Option.none)
          (fun _ => Except.error "boom") 100 100 noCancel noCancel 0 0
          [⟨0, 5, 0, [], []⟩]
        = ([Event.consumed (messageSize ⟨0, 5, 0, [], []⟩), Event.error],
            ExitKind.evalError) :=
  toBooleanE_total_and_eval_error_fatal (JSValue.number 1)
    (fun _ => false) (fun _ => Option.none) (fun _ => Except.error "boom")
    100 100 0 0 ⟨0, 5, 0, [], []⟩ [] "boom" rfl

/-- The `offset` of the message the loop builds is the record's broker
offset, unchanged. -/
theorem buildTopicMessage_offset (jv : List Nat → Bool)
    (xc : List Nat → Option (List Nat)) (m : RawRecord) :
    (buildTopicMessage jv xc m).offset = m.offset := rfl

/-- The loop body never signals completion itself: no `DoneCh` event
appears among its events (only the deferred send in `Run` does). -/
theorem runLoop_no_done (jv : List Nat → Bool) (xc : List Nat → Option (List Nat))
    (f : InterpreterArguments → Except String Bool) (e mc : Int)
    (cr cs : Nat → Bool) :
    ∀ (ms : List RawRecord) (i : Nat) (c : Int),
      Event.done ∉ (runLoop jv xc f e mc cr cs i c ms).1 := by
  intro ms
  induction ms with
  | nil =>
    intro i c
    rw [runLoop]
    split <;> simp
  | cons m t ih =>
    intro i c
    rw [runLoop]
    split
    · simp
    · cases hf : f (argsOf jv xc m) with
      | error err => simp
      | ok isOk =>
        simp only []
        split
        · simp
        · split <;> split <;> simp [ih]

/-- C5: on every execution path of `Run` — subscription-open failure,
interpreter setup failure, upstream channel closure, evaluation error,
bounds reached, or cancellation at any scheduling — the task signals
completion on `DoneCh` exactly once, never zero times and never twice. -/
theorem Run_done_exactly_once (jv : List Nat → Bool)
    (xc : List Nat → Option (List Nat)) (openOk : Bool)
    (setup : Except String (InterpreterArguments → Except String Bool))
    (req : PartitionConsumeRequest) (cr cs : Nat → Bool)
    (records : List RawRecord) :
    doneCount (Run jv xc openOk setup req cr cs records).1 = 1 := by
  unfold Run doneCount
  cases openOk with
  | false => simp
  | true =>
    cases setup with
    | error err => simp
    | ok f =>
      simp only [Bool.not_true, Bool.false_eq_true, if_false, List.countP_append]
      rw [List.countP_eq_zero.mpr]
      · simp
      · intro ev hev
        cases ev with
        | done =>
          exact absurd hev (runLoop_no_done jv xc f req.endOffset req.maxMessageCount
            cr cs records 0 0)
        | consumed s => simp
        | error => simp
        | message m => simp

/-- The offsets of the messages the loop emits form a sublist of the
offsets of the records the broker delivered, in order. -/
theorem runLoop_offsets_sublist (jv : List Nat → Bool)
    (xc : List Nat → Option (List Nat))
    (f : InterpreterArguments → Except String Bool) (e mc : Int)
    (cr cs : Nat → Bool) :
    ∀ (ms : List RawRecord) (i : Nat) (c : Int),
      ((messagesOf (runLoop jv xc f e mc cr cs i c ms).1).map TopicMessage.offset).Sublist
        (ms.map RawRecord.offset) := by
  intro ms
  induction ms with
  | nil =>
    intro i c
    rw [runLoop]
    split <;> simp [messagesOf]
  | cons m t ih =>
    intro i c
    rw [runLoop]
    split
    · simp [messagesOf]
    · cases hf : f (argsOf jv xc m) with
      | error err => simp [messagesOf]
      | ok isOk =>
        simp only []
        split
        · simp [messagesOf]
        · split
          · -- record accepted
            split
            · simp [messagesOf, buildTopicMessage_offset]
            · simp only [messagesOf, List.filterMap_cons, List.filterMap_append,
                List.map_cons, List.map_append]
              exact List.Sublist.cons₂ m.offset (ih (i + 1) (c + 1))
          · -- record rejected
            split
            · simp [messagesOf]
            · simp only [messagesOf, List.filterMap_cons, List.filterMap_append,
                List.map_cons, List.map_append]
              exact List.Sublist.cons m.offset (ih (i + 1) c)

/-- C9: if the broker delivers records in strictly increasing offset
order, the messages sent to the output channel are in strictly
increasing offset order — on every path, whatever the filter accepts or
rejects and wherever cancellation strikes. -/
theorem Run_messages_strictly_increasing (jv : List Nat → Bool)
    (xc : List Nat → Option (List Nat)) (openOk : Bool)
    (setup : Except String (InterpreterArguments → Except String Bool))
    (req : PartitionConsumeRequest) (cr cs : Nat → Bool)
    (records : List RawRecord)
    (h : (records.map RawRecord.offset).Pairwise (· < ·)) :
    ((messagesOf (Run jv xc openOk setup req cr cs records).1).map
      TopicMessage.offset).Pairwise (· < ·) := by
  unfold Run
  cases openOk with
  | false => simp [messagesOf]
  | true =>
    cases setup with
    | error err => simp [messagesOf]
    | ok f =>
      simp only [Bool.not_true, Bool.false_eq_true, if_false, messagesOf,
        List.filterMap_append]
      refine List.Pairwise.sublist ?_ h
      simpa [messagesOf] using
        runLoop_offsets_sublist jv xc f req.endOffset req.maxMessageCount cr cs records 0 0

/-- Witness for C9: two records at offsets 1 and 2, both accepted; the
emitted offsets are strictly increasing. -/
theorem Run_messages_strictly_increasing_witness :
    ((messagesOf (Run (fun _ => false) (fun _ => Option.none) true
        (Except.ok (fun _ => Except.ok true))
        ⟨0, false, 0, 3, 0, 100, 100⟩ noCancel noCancel
        [⟨0, 1, 0, [], []⟩, ⟨0, 2, 0, [], []⟩]).1).map
      TopicMessage.offset).Pairwise (· < ·) :=
  Run_messages_strictly_increasing (fun _ => false) (fun _ => Option.none) true
    (Except.ok (fun _ => Except.ok true)) ⟨0, false, 0, 3, 0, 100, 100⟩
    noCancel noCancel [⟨0, 1, 0, [], []⟩, ⟨0, 2, 0, [], []⟩] (by decide)

/-- The base64 alphabet map is injective on 6-bit groups, with the
given inverse. -/
theorem b64Inv_b64Char : ∀ n < 64, b64Inv (b64Char n) = n := by decide

/-- No 6-bit group encodes to the padding byte `=`. -/
theorem b64Char_ne_61 : ∀ n < 64, b64Char n ≠ 61 := by decide

/-- Base64 round-trip law: decoding an encoding reproduces the original
bytes, for genuine bytes (each `< 256`). -/
theorem base64_roundtrip : ∀ (v : List Nat), (∀ b ∈ v, b < 256) →
    base64Decode (base64Encode v) = v
  | [], _ => rfl
  | [a], h => by
    have ha : a < 256 := h a (by simp)
    have h1 : a / 4 < 64 := by omega
    have h2 : a % 4 * 16 < 64 := by omega
    simp only [base64Encode, base64Decode, b64Inv_b64Char _ h1, b64Inv_b64Char _ h2]
    simp only [beq_self_eq_true, eq_self_iff_true, if_true]
    simp only [List.cons.injEq, and_true]
    omega
  | [a, b], h => by
    have ha : a < 256 := h a (by simp)
    have hb : b < 256 := h b (by simp)
    have h1 : a / 4 < 64 := by omega
    have h2 : a % 4 * 16 + b / 16 < 64 := by omega
    have h3 : b % 16 * 4 < 64 := by omega
    have hne : (b64Char (b % 16 * 4) == 61) = true ↔ False := by
      simp [b64Char_ne_61 _ h3]
    simp only [base64Encode, base64Decode, b64Inv_b64Char _ h1, b64Inv_b64Char _ h2,
      b64Inv_b64Char _ h3, hne, if_false]
    simp only [beq_self_eq_true, eq_self_iff_true, if_true]
    simp only [List.cons.injEq, and_true]
    constructor <;> omega
  | a :: b :: c :: rest, h => by
    have ha : a < 256 := h a (by simp)
    have hb : b < 256 := h b (by simp)
    have hc : c < 256 := h c (by simp)
    have h1 : a / 4 < 64 := by omega
    have h2 : a % 4 * 16 + b / 16 < 64 := by omega
    have h3 : b % 16 * 4 + c / 64 < 64 := by omega
    have h4 : c % 64 < 64 := by omega
    have hne2 : (b64Char (b % 16 * 4 + c / 64) == 61) = true ↔ False := by
      simp [b64Char_ne_61 _ h3]
    have hne3 : (b64Char (c % 64) == 61) = true ↔ False := by
      simp [b64Char_ne_61 _ h4]
    have ih := base64_roundtrip rest (fun x hx => h x (by simp [hx]))
    simp only [base64Encode, base64Decode, b64Inv_b64Char _ h1, b64Inv_b64Char _ h2,
      b64Inv_b64Char _ h3, b64Inv_b64Char _ h4, hne2, hne3, if_false, ih]
    simp only [List.cons.injEq]
    exact ⟨by omega, by omega, by omega, trivial⟩

/-- Trimming leading ASCII whitespace does not change UTF-8 validity:
the trimmed bytes are all single-byte sequences. -/
theorem utf8Valid_trimLeftWS (v : List Nat) :
    utf8Valid (trimLeftWS v) = utf8Valid v := by
  induction v with
  | nil => rfl
  | cons b t ih =>
    by_cases hb : isTrimByte b = true
    · have hb' : b ≤ 127 := by
        have hd := hb
        simp [isTrimByte] at hd
        rcases hd with h | h | h | h <;> omega
      have e1 : trimLeftWS (b :: t) = trimLeftWS t := by
        simp [trimLeftWS, List.dropWhile_cons, hb]
      have e2 : utf8Valid (b :: t) = utf8Valid t := by
        conv_lhs => rw [utf8Valid.eq_def]
        simp only [if_pos hb']
      rw [e1, e2]
      exact ih
    · have e1 : trimLeftWS (b :: t) = b :: t := by
        simp [trimLeftWS, List.dropWhile_cons, hb]
      rw [e1]

/-- C7: for every byte sequence that is not valid UTF-8, the normalizer
returns `contentType = binary` and the embedding holds the base64
encoding of the original bytes, whose decoding reproduces them exactly.
The JSON validator and XML converter are assumed to accept only valid
UTF-8 input (strict validation), so neither earlier branch can fire. -/
theorem getValue_binary_roundtrip (jv : List Nat → Bool)
    (xc : List Nat → Option (List Nat)) (v : List Nat)
    (hb : ∀ b ∈ v, b < 256)
    (hutf : utf8Valid v = false)
    (hjv : ∀ t, jv t = true → utf8Valid t = true)
    (hxc : ∀ t, utf8Valid t = false → xc t = Option.none) :
    getValue jv xc v = (ValueTy.binary, ⟨ValueTy.binary, base64Encode v⟩) ∧
      base64Decode (base64Encode v) = v := by
  have htrim : utf8Valid (trimLeftWS v) = false := by
    rw [utf8Valid_trimLeftWS]
    exact hutf
  have hvne : v ≠ [] := by
    intro h
    subst h
    exact absurd hutf (by simp [utf8Valid])
  have hvlen : ¬ v.length = 0 := by simpa [List.length_eq_zero] using hvne
  have htne : ¬ (trimLeftWS v).length = 0 := by
    intro h
    have hnil := List.length_eq_zero.mp h
    rw [hnil] at htrim
    exact absurd htrim (by simp [utf8Valid])
  have hjv' : jv (trimLeftWS v) = false := by
    cases hj : jv (trimLeftWS v) with
    | false => rfl
    | true => exact absurd (hjv _ hj) (by simp [htrim])
  have hxc' : xc (trimLeftWS v) = Option.none := hxc _ htrim
  refine ⟨?_, base64_roundtrip v hb⟩
  by_cases hx : (trimLeftWS v).headI = 60
  · simp [getValue, hvlen, htne, hjv', hx, hxc', hutf]
  · simp [getValue, hvlen, htne, hjv', hx, hutf]

/-- Witness for C7 at the concrete input `0xFF`, a byte sequence that
is not valid UTF-8. -/
theorem getValue_binary_roundtrip_witness :
    getValue (fun _ => false) (fun _ => Option.none) [255]
        = (ValueTy.binary, ⟨ValueTy.binary, base64Encode [255]⟩) ∧
      base64Decode (base64Encode [255]) = [255] :=
  getValue_binary_roundtrip (fun _ => false) (fun _ => Option.none) [255]
    (by decide) (by decide) (fun t h => nomatch h) (fun t _ => rfl)

/-- The loop, run with an error-free boolean filter and no
cancellation, stops exactly at the first record index `k` (relative to
a starting accepted count `c`) satisfying the stop condition of line
172: it exits with `bounds`, has processed exactly `k + 1` records, and
has emitted exactly the accepted ones among them, in order. -/
theorem runLoop_first_stop (jv : List Nat → Bool) (xc : List Nat → Option (List Nat))
    (pass : InterpreterArguments → Bool) (e mc : Int) :
    ∀ (k : Nat) (ms : List RawRecord) (i : Nat) (c : Int),
      k < ms.length →
      ((ms.getD k default).offset ≥ e ∨
        c + ((ms.take (k + 1)).countP (fun m => pass (argsOf jv xc m)) : Int) = mc) →
      (∀ j, j < k →
        ¬((ms.getD j default).offset ≥ e ∨
          c + ((ms.take (j + 1)).countP (fun m => pass (argsOf jv xc m)) : Int) = mc)) →
      (runLoop jv xc (fun a => Except.ok (pass a)) e mc noCancel noCancel i c ms).2
          = ExitKind.bounds ∧
        consumedCount
            (runLoop jv xc (fun a => Except.ok (pass a)) e mc noCancel noCancel i c ms).1
          = k + 1 ∧
        messagesOf
            (runLoop jv xc (fun a => Except.ok (pass a)) e mc noCancel noCancel i c ms).1
          = ((ms.take (k + 1)).filter (fun m => pass (argsOf jv xc m))).map
              (buildTopicMessage jv xc) := by
  intro k
  induction k with
  | zero =>
    intro ms i c hk hstop hmin
    cases ms with
    | nil => exact absurd hk (by simp)
    | cons m t =>
      simp only [List.getD_cons_zero, List.take_succ_cons, List.take_zero,
        List.countP_cons, List.countP_nil] at hstop
      rw [runLoop]
      simp only [noCancel, Bool.false_eq_true, if_false, Bool.and_false]
      by_cases hp : pass (argsOf jv xc m) = true
      · simp only [hp, if_true, if_pos] at hstop ⊢
        have hcond : (decide (m.offset ≥ e) || ((c + 1 : Int) == mc)) = true := by
          simp only [Bool.or_eq_true, decide_eq_true_eq, beq_iff_eq]
          rcases hstop with h | h
          · exact Or.inl h
          · right
            omega
        rw [if_pos hcond]
        refine ⟨rfl, rfl, ?_⟩
        simp [messagesOf, List.filter_cons, hp]
      · have hp' : pass (argsOf jv xc m) = false := by simpa using hp
        simp only [hp', Bool.false_eq_true, if_false] at hstop ⊢
        have hcond : (decide (m.offset ≥ e) || ((c : Int) == mc)) = true := by
          simp only [Bool.or_eq_true, decide_eq_true_eq, beq_iff_eq]
          rcases hstop with h | h
          · exact Or.inl h
          · right
            omega
        rw [if_pos hcond]
        refine ⟨rfl, rfl, ?_⟩
        simp [messagesOf, List.filter_cons, hp]
  | succ j ihj =>
    intro ms i c hk hstop hmin
    cases ms with
    | nil => exact absurd hk (by simp)
    | cons m t =>
      have h0 := hmin 0 (Nat.succ_pos j)
      simp only [List.getD_cons_zero, List.take_succ_cons, List.take_zero,
        List.countP_cons, List.countP_nil, not_or] at h0
      obtain ⟨h0o, h0c⟩ := h0
      simp only [List.getD_cons_succ, List.take_succ_cons, List.countP_cons] at hstop
      rw [runLoop]
      simp only [noCancel, Bool.false_eq_true, if_false, Bool.and_false]
      by_cases hp : pass (argsOf jv xc m) = true
      · simp only [hp, if_true] at hstop h0c ⊢
        have hcond : (decide (m.offset ≥ e) || ((c + 1 : Int) == mc)) = false := by
          simp only [Bool.or_eq_false_iff, decide_eq_false_iff_not, beq_eq_false_iff_ne]
          exact ⟨h0o, by omega⟩
        rw [if_neg (by simp [hcond])]
        have hk' : j < t.length := by
          simpa using Nat.lt_of_succ_lt_succ hk
        have hstop' : (t.getD j default).offset ≥ e ∨
            (c + 1) + ((t.take (j + 1)).countP (fun m => pass (argsOf jv xc m)) : Int) = mc := by
          rcases hstop with h | h
          · exact Or.inl h
          · right
            push_cast at h ⊢
            omega
        have hmin' : ∀ j', j' < j →
            ¬((t.getD j' default).offset ≥ e ∨
              (c + 1) + ((t.take (j' + 1)).countP (fun m => pass (argsOf jv xc m)) : Int) = mc) := by
          intro j' hj'
          have hm := hmin (j' + 1) (Nat.succ_lt_succ hj')
          simp only [List.getD_cons_succ, List.take_succ_cons, List.countP_cons,
            not_or, hp, if_true] at hm
          obtain ⟨hm1, hm2⟩ := hm
          refine not_or.mpr ⟨hm1, ?_⟩
          intro hcontra
          apply hm2
          push_cast at hcontra ⊢
          omega
        obtain ⟨ih1, ih2, ih3⟩ := ihj t (i + 1) (c + 1) hk' hstop' hmin'
        refine ⟨ih1, ?_, ?_⟩
        · simp only [consumedCount, List.countP_cons, List.countP_append] at ih2 ⊢
          simp [ih2]
        · simp only [messagesOf, List.filterMap_cons, List.filterMap_append] at ih3 ⊢
          simp [ih3, List.filter_cons, hp]
      · have hp' : pass (argsOf jv xc m) = false := by simpa using hp
        simp only [hp', Bool.false_eq_true, if_false] at hstop h0c ⊢
        have hcond : (decide (m.offset ≥ e) || ((c : Int) == mc)) = false := by
          simp only [Bool.or_eq_false_iff, decide_eq_false_iff_not, beq_eq_false_iff_ne]
          exact ⟨h0o, by omega⟩
        rw [if_neg (by simp [hcond])]
        have hk' : j < t.length := by
          simpa using Nat.lt_of_succ_lt_succ hk
        have hstop' : (t.getD j default).offset ≥ e ∨
            c + ((t.take (j + 1)).countP (fun m => pass (argsOf jv xc m)) : Int) = mc := by
          rcases hstop with h | h
          · exact Or.inl h
          · right
            push_cast at h ⊢
            omega
        have hmin' : ∀ j', j' < j →
            ¬((t.getD j' default).offset ≥ e ∨
              c + ((t.take (j' + 1)).countP (fun m => pass (argsOf jv xc m)) : Int) = mc) := by
          intro j' hj'
          have hm := hmin (j' + 1) (Nat.succ_lt_succ hj')
          simp only [List.getD_cons_succ, List.take_succ_cons, List.countP_cons,
            not_or, hp', Bool.false_eq_true, if_false] at hm
          obtain ⟨hm1, hm2⟩ := hm
          refine not_or.mpr ⟨hm1, ?_⟩
          intro hcontra
          apply hm2
          push_cast at hcontra ⊢
          omega
        obtain ⟨ih1, ih2, ih3⟩ := ihj t (i + 1) c hk' hstop' hmin'
        refine ⟨ih1, ?_, ?_⟩
        · simp only [consumedCount, List.countP_cons, List.countP_append] at ih2 ⊢
          simp [ih2]
        · simp only [messagesOf, List.filterMap_cons, List.filterMap_append] at ih3 ⊢
          simp [ih3, List.filter_cons, hp]

/-- C1: for a request with `startOffset ≤ endOffset`, an error-free
filter, no cancellation, and any delivered record sequence containing a
stop point, `Run` stops at the first index `k` where the processed
record's offset reached `endOffset` or the accepted count equals
`maxMessageCount` (the check made after each processed record, accepted
or not): it terminates normally with `bounds`, processes exactly
`k + 1` records, and emits exactly the filter-passing ones among them. -/
theorem Run_stops_at_first_bound (jv : List Nat → Bool)
    (xc : List Nat → Option (List Nat)) (pass : InterpreterArguments → Bool)
    (req : PartitionConsumeRequest) (records : List RawRecord) (k : Nat)
    (hse : req.startOffset ≤ req.endOffset)
    (hk : k < records.length)
    (hstop : stopsAt (fun m => pass (argsOf jv xc m)) req.endOffset
      req.maxMessageCount records k = true)
    (hmin : ∀ j, j < k → stopsAt (fun m => pass (argsOf jv xc m)) req.endOffset
      req.maxMessageCount records j = false) :
    (Run jv xc true (Except.ok (fun a => Except.ok (pass a))) req
          noCancel noCancel records).2 = ExitKind.bounds ∧
      consumedCount (Run jv xc true (Except.ok (fun a => Except.ok (pass a))) req
          noCancel noCancel records).1 = k + 1 ∧
      messagesOf (Run jv xc true (Except.ok (fun a => Except.ok (pass a))) req
          noCancel noCancel records).1
        = ((records.take (k + 1)).filter (fun m => pass (argsOf jv xc m))).map
            (buildTopicMessage jv xc) := by
  have hstop' : (records.getD k default).offset ≥ req.endOffset ∨
      (0 : Int) + ((records.take (k + 1)).countP
        (fun m => pass (argsOf jv xc m)) : Int) = req.maxMessageCount := by
    have hs := hstop
    simp only [stopsAt, Bool.or_eq_true, decide_eq_true_eq, beq_iff_eq] at hs
    rcases hs with h | h
    · exact Or.inl h
    · right
      omega
  have hmin' : ∀ j, j < k →
      ¬((records.getD j default).offset ≥ req.endOffset ∨
        (0 : Int) + ((records.take (j + 1)).countP
          (fun m => pass (argsOf jv xc m)) : Int) = req.maxMessageCount) := by
    intro j hj
    have hm := hmin j hj
    simp only [stopsAt, Bool.or_eq_false_iff, decide_eq_false_iff_not,
      beq_eq_false_iff_ne] at hm
    obtain ⟨ha, hb⟩ := hm
    rintro (h | h)
    · exact ha h
    · exact hb (by omega)
  obtain ⟨h1, h2, h3⟩ := runLoop_first_stop jv xc pass req.endOffset
    req.maxMessageCount k records 0 0 hk hstop' hmin'
  refine ⟨?_, ?_, ?_⟩
  · simpa [Run] using h1
  · simpa [Run, consumedCount, List.countP_append] using h2
  · simpa [Run, messagesOf, List.filterMap_append] using h3

/-- Witness for C1: `maxMessageCount = 3`, ten records at offsets 0–9
all passing the filter, `endOffset = 1000`: the run exits normally at
the third record — well before `endOffset` — having processed exactly 3
records and emitted exactly 3 messages. -/
theorem Run_stops_at_first_bound_witness :
    (Run (fun _ => false) (fun _ => Option.none) true
          (Except.ok (fun a => Except.ok true))
          ⟨0, false, 0, 10, 0, 1000, 3⟩ noCancel noCancel
          [⟨0, 0, 0, [], []⟩, ⟨0, 1, 0, [], []⟩, ⟨0, 2, 0, [], []⟩, ⟨0, 3, 0, [], []⟩,
           ⟨0, 4, 0, [], []⟩, ⟨0, 5, 0, [], []⟩, ⟨0, 6, 0, [], []⟩, ⟨0, 7, 0, [], []⟩,
           ⟨0, 8, 0, [], []⟩, ⟨0, 9, 0, [], []⟩]).2 = ExitKind.bounds ∧
      consumedCount (Run (fun _ => false) (fun _ => Option.none) true
          (Except.ok (fun a => Except.ok true))
          ⟨0, false, 0, 10, 0, 1000, 3⟩ noCancel noCancel
          [⟨0, 0, 0, [], []⟩, ⟨0, 1, 0, [], []⟩, ⟨0, 2, 0, [], []⟩, ⟨0, 3, 0, [], []⟩,
           ⟨0, 4, 0, [], []⟩, ⟨0, 5, 0, [], []⟩, ⟨0, 6, 0, [], []⟩, ⟨0, 7, 0, [], []⟩,
           ⟨0, 8, 0, [], []⟩, ⟨0, 9, 0, [], []⟩]).1 = 2 + 1 ∧
      messagesOf (Run (fun _ => false) (fun _ => Option.none) true
          (Except.ok (fun a => Except.ok true))
          ⟨0, false, 0, 10, 0, 1000, 3⟩ noCancel noCancel
          [⟨0, 0, 0, [], []⟩, ⟨0, 1, 0, [], []⟩, ⟨0, 2, 0, [], []⟩, ⟨0, 3, 0, [], []⟩,
           ⟨0, 4, 0, [], []⟩, ⟨0, 5, 0, [], []⟩, ⟨0, 6, 0, [], []⟩, ⟨0, 7, 0, [], []⟩,
           ⟨0, 8, 0, [], []⟩, ⟨0, 9, 0, [], []⟩]).1
        = (((([⟨0, 0, 0, [], []⟩, ⟨0, 1, 0, [], []⟩, ⟨0, 2, 0, [], []⟩, ⟨0, 3, 0, [], []⟩,
              ⟨0, 4, 0, [], []⟩, ⟨0, 5, 0, [], []⟩, ⟨0, 6, 0, [], []⟩, ⟨0, 7, 0, [], []⟩,
              ⟨0, 8, 0, [], []⟩, ⟨0, 9, 0, [], []⟩] : List RawRecord).take (2 + 1)).filter
              (fun m => true)).map
            (buildTopicMessage (fun _ => false) (fun _ => Option.none))) :=
  Run_stops_at_first_bound (fun _ => false) (fun _ => Option.none) (fun _ => true)
    ⟨0, false, 0, 10, 0, 1000, 3⟩
    [⟨0, 0, 0, [], []⟩, ⟨0, 1, 0, [], []⟩, ⟨0, 2, 0, [], []⟩, ⟨0, 3, 0, [], []⟩,
     ⟨0, 4, 0, [], []⟩, ⟨0, 5, 0, [], []⟩, ⟨0, 6, 0, [], []⟩, ⟨0, 7, 0, [], []⟩,
     ⟨0, 8, 0, [], []⟩, ⟨0, 9, 0, [], []⟩] 2
    (by decide) (by decide) (by decide) (by decide)

end Kowl
